import Mathlib

/-!
Verification development for the airweave sync engine.

Shallow embedding of the parts of the repository that decide the claims:

* `app/platform/sync/orchestrator.py` — the per-entity action decision
  (`_determine_entity_action`), the KEEP short-circuit
  (`_process_entity_with_semaphore`), and entity/destination persistence
  (`_persist_entities`).
* `app/platform/destinations/neo4j.py` — the property-map conversion steps
  (`_convert_uuids_to_strings`, `_ensure_neo4j_compatible`).
* The access-control pipeline and the SharePoint deletion entities, whose
  implementation modules are not part of the source tree here (only their unit
  tests are); they are modelled from the specification, as marked in the
  relevant doc comments.

Machine ids (UUIDs, database primary keys, content hashes) are modelled as
`Nat`; entity ids and names as `String`.
-/

set_option autoImplicit false

namespace Airweave

/-! ## Entity model and entity state store

`BaseEntity` fields relevant to the orchestrator: the stable `entity_id`, the
pure content hash `entity.hash()` (modelled as a stored field, since the hash
function is pure and the orchestrator only ever compares its value), and the
`db_entity_id` stamped during persistence.  Enrichment metadata
(`source_name`, `sync_metadata`, white-label fields) is carried by no claim
and is left out.
-/

structure Entity where
  entityId : String
  hash : Nat
  dbEntityId : Option Nat := none
  deriving DecidableEq, Repr

/-- A row of the `entity_state` table: keyed by `(sync_id, entity_id)`,
carrying the stored content hash, as read and written by
`crud.entity` in `orchestrator.py`. -/
structure EntityRow where
  id : Nat
  syncId : Nat
  entityId : String
  hash : Nat
  syncJobId : Nat
  deriving DecidableEq, Repr

/-- `crud.entity.get_by_entity_and_sync_id`: look up the row keyed by
`(sync_id, entity_id)`. -/
def getByEntityAndSyncId (table : List EntityRow) (entityId : String) (syncId : Nat) :
    Option EntityRow :=
  table.find? (fun r => r.syncId == syncId && r.entityId == entityId)

/-- `DestinationAction` from `app/platform/entities/_base.py`, as used by the
orchestrator: `{INSERT, UPDATE, KEEP}`. -/
inductive DestinationAction where
  | insert
  | update
  | keep
  deriving DecidableEq, Repr

/-- `SyncOrchestrator._determine_entity_action` (orchestrator.py lines
271-301): look up the entity; if a row exists and its hash differs from the
entity's hash the action is UPDATE, if it exists with the same hash KEEP,
and if no row exists INSERT. -/
def determineEntityAction (table : List EntityRow) (syncId : Nat) (e : Entity) :
    Option EntityRow × DestinationAction :=
  match getByEntityAndSyncId table e.entityId syncId with
  | some dbEntity =>
      if dbEntity.hash ≠ e.hash then
        (some dbEntity, DestinationAction.update)
      else
        (some dbEntity, DestinationAction.keep)
  | none => (none, DestinationAction.insert)

/-- The action decision as the specification words it (spec §4.5): look up
`(sync_id, entity_id)` in EntityState; if absent, INSERT; if present and
`db.hash == entity.hash()`, KEEP; else UPDATE.  Stated separately from
`determineEntityAction` so that agreement between the two is a theorem. -/
def specDetermineAction (table : List EntityRow) (syncId : Nat) (e : Entity) :
    DestinationAction :=
  match getByEntityAndSyncId table e.entityId syncId with
  | none => DestinationAction.insert
  | some row =>
      if row.hash = e.hash then DestinationAction.keep else DestinationAction.update

/-- C1: for every entity, the action computed by the orchestrator's
`_determine_entity_action` coincides with the spec's lookup rule: absent row
means INSERT, equal stored hash means KEEP, differing hash means UPDATE. -/
theorem determine_entity_action_matches_spec
    (table : List EntityRow) (syncId : Nat) (e : Entity) :
    (determineEntityAction table syncId e).2 = specDetermineAction table syncId e := by
  unfold determineEntityAction specDetermineAction
  cases getByEntityAndSyncId table e.entityId syncId with
  | none => rfl
  | some row =>
      by_cases h : row.hash = e.hash <;> simp [h]

/-! ## Persistence: `SyncOrchestrator._persist_entities`

The progress-sink counters incremented by the orchestrator
(`inserted`, `updated`, `already_sync`, `skipped`); a `failed` counter is
included because the progress sink carries one, but note that no path of
`_persist_entities` or `_process_entity_with_semaphore` increments it.
-/

structure Counters where
  inserted : Nat := 0
  updated : Nat := 0
  alreadySync : Nat := 0
  skipped : Nat := 0
  failed : Nat := 0
  deriving DecidableEq, Repr

/-- A call issued to a destination by `_persist_entities`:
`destination.bulk_insert(processed_entities)` or
`destination.delete(db_entity.id)`. -/
inductive DestOp where
  | bulkInsert (entities : List Entity)
  | delete (dbEntityId : Nat)
  deriving DecidableEq, Repr

/-- One configured destination.  The two flags model whether its
`delete` / `bulk_insert` calls raise; a raised call is caught by the
per-destination `try/except` in `_persist_entities`. -/
structure Dest where
  name : String
  deleteFails : Bool := false
  bulkInsertFails : Bool := false
  deriving DecidableEq, Repr

/-- The destination calls attempted for one entity inside the per-destination
`try` block of `_persist_entities` (orchestrator.py lines 356-370): INSERT
issues `bulk_insert`; UPDATE issues `delete(db_entity.id)` and, if that call
did not raise, `bulk_insert`.  Graph-destination relationship emission
(`_process_relationships`) follows these calls and is not part of any claim,
so it is not modelled. -/
def destWrite (action : DestinationAction) (processed : List Entity) (dbEntityId : Nat)
    (d : Dest) : List DestOp :=
  match action with
  | DestinationAction.insert => [DestOp.bulkInsert processed]
  | DestinationAction.update =>
      if d.deleteFails then
        [DestOp.delete dbEntityId]
      else
        [DestOp.delete dbEntityId, DestOp.bulkInsert processed]
  | DestinationAction.keep => []

/-- `crud.entity.update`: replace the stored hash of the row with the given
primary key. -/
def updateRowHash (table : List EntityRow) (rowId : Nat) (newHash : Nat) :
    List EntityRow :=
  table.map (fun r => if r.id = rowId then { r with hash := newHash } else r)

/-- Result of `_persist_entities`: the entity-state table, the counters, the
calls received by each destination, the `db_entity_id` stamped on the parent
entity, and whether the function raised out of the state-store write
(which in the code happens only when `action == UPDATE` but `db_entity` is
`None`). -/
structure PersistResult where
  table : List EntityRow
  counters : Counters
  destOps : List (String × List DestOp)
  parentDbEntityId : Option Nat
  crashed : Bool := false
  deriving DecidableEq, Repr

/-- `SyncOrchestrator._persist_entities` (orchestrator.py lines 303-370).
KEEP increments `skipped` and returns (dead in practice: the caller
short-circuits KEEP earlier).  INSERT creates the entity-state row with the
parent's hash (`newId` models the primary key generated by `crud.entity.create`)
and increments `inserted`; UPDATE rewrites the stored hash of `db_entity` and
increments `updated`.  Only then does the destination loop run, each
destination inside its own `try/except`, so a destination failure is logged
and the loop continues with the next destination. -/
def persistEntities (parent : Entity) (processed : List Entity)
    (dbEntity : Option EntityRow) (action : DestinationAction) (dests : List Dest)
    (syncId syncJobId newId : Nat) (table : List EntityRow) (counters : Counters) :
    PersistResult :=
  match action with
  | DestinationAction.keep =>
      { table := table
        counters := { counters with skipped := counters.skipped + 1 }
        destOps := []
        parentDbEntityId := parent.dbEntityId }
  | DestinationAction.insert =>
      let row : EntityRow :=
        { id := newId, syncId := syncId, entityId := parent.entityId,
          hash := parent.hash, syncJobId := syncJobId }
      { table := table ++ [row]
        counters := { counters with inserted := counters.inserted + 1 }
        destOps := dests.map (fun d => (d.name, destWrite DestinationAction.insert processed newId d))
        parentDbEntityId := some newId }
  | DestinationAction.update =>
      match dbEntity with
      | some row =>
          { table := updateRowHash table row.id parent.hash
            counters := { counters with updated := counters.updated + 1 }
            destOps := dests.map
              (fun d => (d.name, destWrite DestinationAction.update processed row.id d))
            parentDbEntityId := some row.id }
      | none =>
          { table := table
            counters := counters
            destOps := []
            parentDbEntityId := parent.dbEntityId
            crashed := true }

/-- C2: for an entity whose action is INSERT, every configured destination
receives exactly one `BulkInsert` of the processed entities; for an entity
whose action is UPDATE, every destination whose `delete` call does not fail
receives `Delete(db_entity.id)` followed by `BulkInsert` of the processed
entities, in that order. -/
theorem persist_destination_writes (parent : Entity) (processed : List Entity)
    (row : EntityRow) (dests : List Dest) (syncId syncJobId newId : Nat)
    (table : List EntityRow) (counters : Counters) :
    (persistEntities parent processed (some row) DestinationAction.insert dests
        syncId syncJobId newId table counters).destOps =
      dests.map (fun d => (d.name, [DestOp.bulkInsert processed]))
    ∧ ∀ d ∈ dests, d.deleteFails = false →
        (d.name, [DestOp.delete row.id, DestOp.bulkInsert processed]) ∈
          (persistEntities parent processed (some row) DestinationAction.update dests
            syncId syncJobId newId table counters).destOps := by
  constructor
  · rfl
  · intro d hd hfail
    simp only [persistEntities, List.mem_map]
    exact ⟨d, hd, by simp [destWrite, hfail]⟩

/-- Closed instance of `persist_destination_writes` at a concrete entity,
row and destination list. -/
theorem persist_destination_writes_witness :
    (persistEntities ⟨"e2", 20, none⟩ [⟨"e2c", 20, none⟩] (some ⟨7, 1, "e2", 10, 2⟩)
        DestinationAction.insert [⟨"qdrant", false, false⟩] 1 3 9 [] {}).destOps =
      [("qdrant", [DestOp.bulkInsert [⟨"e2c", 20, none⟩]])]
    ∧ ("qdrant", [DestOp.delete 7, DestOp.bulkInsert [⟨"e2c", 20, none⟩]]) ∈
        (persistEntities ⟨"e2", 20, none⟩ [⟨"e2c", 20, none⟩] (some ⟨7, 1, "e2", 10, 2⟩)
          DestinationAction.update [⟨"qdrant", false, false⟩] 1 3 9 [] {}).destOps := by
  refine ⟨?_, ?_⟩
  · exact (persist_destination_writes ⟨"e2", 20, none⟩ [⟨"e2c", 20, none⟩]
      ⟨7, 1, "e2", 10, 2⟩ [⟨"qdrant", false, false⟩] 1 3 9 [] {}).1
  · exact (persist_destination_writes ⟨"e2", 20, none⟩ [⟨"e2c", 20, none⟩]
      ⟨7, 1, "e2", 10, 2⟩ [⟨"qdrant", false, false⟩] 1 3 9 [] {}).2
      ⟨"qdrant", false, false⟩ (List.mem_singleton.mpr rfl) rfl

/-! ## Per-entity processing: `SyncOrchestrator._process_entity_with_semaphore` -/

/-- Result of processing one entity: the entity-state table and counters after
the call, the destination calls it caused, the entities produced by the DAG
router for it, and the action taken. -/
structure ProcessResult where
  table : List EntityRow
  counters : Counters
  destOps : List (String × List DestOp)
  processed : List Entity
  action : DestinationAction
  deriving DecidableEq, Repr

/-- `SyncOrchestrator._process_entity_with_semaphore` (orchestrator.py lines
197-242), after enrichment: determine the action; if it is KEEP, increment
`already_sync` and return immediately with no routed entities; otherwise run
the DAG router (`route` models `sync_context.router.process_entity`) and call
`_persist_entities`.  Returns `none` when `_persist_entities` raised. -/
def processEntity (route : Entity → List Entity) (dests : List Dest)
    (syncId syncJobId newId : Nat) (table : List EntityRow) (counters : Counters)
    (e : Entity) : Option ProcessResult :=
  match determineEntityAction table syncId e with
  | (dbEntity, action) =>
    if action = DestinationAction.keep then
      some { table := table
             counters := { counters with alreadySync := counters.alreadySync + 1 }
             destOps := []
             processed := []
             action := DestinationAction.keep }
    else
      let processed := route e
      let pr := persistEntities e processed dbEntity action dests syncId syncJobId newId
        table counters
      if pr.crashed then
        none
      else
        some { table := pr.table
               counters := pr.counters
               destOps := pr.destOps
               processed := processed
               action := action }

/-- C3: when the action determined for an entity is KEEP, processing
short-circuits: the result does not depend on the DAG router, no destination
call and no entity-state write happens for the entity, no entities are routed,
and the only change is `already_sync` increasing by one. -/
theorem keep_short_circuits (route : Entity → List Entity) (dests : List Dest)
    (syncId syncJobId newId : Nat) (table : List EntityRow) (counters : Counters)
    (e : Entity)
    (h : (determineEntityAction table syncId e).2 = DestinationAction.keep) :
    processEntity route dests syncId syncJobId newId table counters e =
      some { table := table
             counters := { counters with alreadySync := counters.alreadySync + 1 }
             destOps := []
             processed := []
             action := DestinationAction.keep } := by
  unfold processEntity
  rcases hda : determineEntityAction table syncId e with ⟨dbEntity, action⟩
  rw [hda] at h
  simp only at h
  subst h
  simp

/-- Closed instance of `keep_short_circuits`: an entity whose stored hash
matches its content hash is kept, leaving the table and destination log
untouched and bumping only `already_sync`. -/
theorem keep_short_circuits_witness :
    processEntity (fun e => [e]) [⟨"qdrant", false, false⟩] 1 3 9
        [⟨7, 1, "e1", 10, 2⟩] {} ⟨"e1", 10, none⟩ =
      some { table := [⟨7, 1, "e1", 10, 2⟩]
             counters := { alreadySync := 1 }
             destOps := []
             processed := []
             action := DestinationAction.keep } := by
  have h : (determineEntityAction [⟨7, 1, "e1", 10, 2⟩] 1 ⟨"e1", 10, none⟩).2 =
      DestinationAction.keep := by decide
  exact keep_short_circuits (fun e => [e]) [⟨"qdrant", false, false⟩] 1 3 9
    [⟨7, 1, "e1", 10, 2⟩] {} ⟨"e1", 10, none⟩ h

/-! ## C4: destination failure

The claim says a failed destination write leaves the entity counted as
`failed` and its entity-state row unadvanced.  In `_persist_entities` the
state-store write (`crud.entity.create` / `crud.entity.update`) happens
*before* the destination loop, and a destination exception is caught, logged
and dropped: no counter is rolled back or incremented.  The concrete run
below exhibits this.
-/

/-- C4 counterexample: one entity with a stored hash 10 and new hash 20,
action UPDATE, a single destination whose `delete` call fails.  After
`_persist_entities` the `failed` counter is still 0 (the entity was counted
as `updated`), and the entity-state row was advanced to the new hash —
contradicting the claim that the entity is counted as failed and its row is
not advanced. -/
theorem destination_failure_claim_counterexample :
    ¬ ((persistEntities ⟨"e2", 20, none⟩ [⟨"e2c", 20, none⟩]
          (some ⟨7, 1, "e2", 10, 2⟩) DestinationAction.update
          [⟨"neo4j", true, false⟩] 1 3 9 [⟨7, 1, "e2", 10, 2⟩] {}).counters.failed = 1
        ∨ (persistEntities ⟨"e2", 20, none⟩ [⟨"e2c", 20, none⟩]
          (some ⟨7, 1, "e2", 10, 2⟩) DestinationAction.update
          [⟨"neo4j", true, false⟩] 1 3 9 [⟨7, 1, "e2", 10, 2⟩] {}).table =
            [⟨7, 1, "e2", 10, 2⟩]) := by
  decide

/-- C4 amended: if a destination's `delete` call fails for an UPDATE entity,
the error is swallowed per destination: the entity-state row has already been
advanced to the new hash, the entity is counted as `updated` (the `failed`
counter is untouched), the failing destination received only the `Delete`
call, and every destination in the list — including those after the failing
one — still has its calls attempted. -/
theorem destination_failure_behavior (parent : Entity) (processed : List Entity)
    (row : EntityRow) (dests : List Dest) (d : Dest)
    (syncId syncJobId newId : Nat) (table : List EntityRow) (counters : Counters)
    (hd : d ∈ dests) (hfail : d.deleteFails = true) :
    (persistEntities parent processed (some row) DestinationAction.update dests
        syncId syncJobId newId table counters).table =
      updateRowHash table row.id parent.hash
    ∧ (persistEntities parent processed (some row) DestinationAction.update dests
        syncId syncJobId newId table counters).counters =
      { counters with updated := counters.updated + 1 }
    ∧ (d.name, [DestOp.delete row.id]) ∈
        (persistEntities parent processed (some row) DestinationAction.update dests
          syncId syncJobId newId table counters).destOps
    ∧ (persistEntities parent processed (some row) DestinationAction.update dests
        syncId syncJobId newId table counters).destOps =
      dests.map (fun d2 => (d2.name, destWrite DestinationAction.update processed row.id d2)) := by
  refine ⟨rfl, rfl, ?_, rfl⟩
  simp only [persistEntities, List.mem_map]
  exact ⟨d, hd, by simp [destWrite, hfail]⟩

/-- Closed instance of `destination_failure_behavior`: two destinations, the
first failing on `delete`; the row is advanced, `updated` is incremented, and
the second destination still gets `Delete` followed by `BulkInsert`. -/
theorem destination_failure_behavior_witness :
    (persistEntities ⟨"e2", 20, none⟩ [⟨"e2c", 20, none⟩] (some ⟨7, 1, "e2", 10, 2⟩)
        DestinationAction.update [⟨"neo4j", true, false⟩, ⟨"qdrant", false, false⟩]
        1 3 9 [⟨7, 1, "e2", 10, 2⟩] {}).table =
      updateRowHash [⟨7, 1, "e2", 10, 2⟩] 7 20
    ∧ (persistEntities ⟨"e2", 20, none⟩ [⟨"e2c", 20, none⟩] (some ⟨7, 1, "e2", 10, 2⟩)
        DestinationAction.update [⟨"neo4j", true, false⟩, ⟨"qdrant", false, false⟩]
        1 3 9 [⟨7, 1, "e2", 10, 2⟩] {}).counters =
      { updated := 1 }
    ∧ ("neo4j", [DestOp.delete 7]) ∈
        (persistEntities ⟨"e2", 20, none⟩ [⟨"e2c", 20, none⟩] (some ⟨7, 1, "e2", 10, 2⟩)
          DestinationAction.update [⟨"neo4j", true, false⟩, ⟨"qdrant", false, false⟩]
          1 3 9 [⟨7, 1, "e2", 10, 2⟩] {}).destOps
    ∧ (persistEntities ⟨"e2", 20, none⟩ [⟨"e2c", 20, none⟩] (some ⟨7, 1, "e2", 10, 2⟩)
        DestinationAction.update [⟨"neo4j", true, false⟩, ⟨"qdrant", false, false⟩]
        1 3 9 [⟨7, 1, "e2", 10, 2⟩] {}).destOps =
      [⟨"neo4j", true, false⟩, ⟨"qdrant", false, false⟩].map
        (fun d2 => (d2.name, destWrite DestinationAction.update [⟨"e2c", 20, none⟩] 7 d2)) := by
  have h := destination_failure_behavior ⟨"e2", 20, none⟩ [⟨"e2c", 20, none⟩]
    ⟨7, 1, "e2", 10, 2⟩ [⟨"neo4j", true, false⟩, ⟨"qdrant", false, false⟩]
    ⟨"neo4j", true, false⟩ 1 3 9 [⟨7, 1, "e2", 10, 2⟩] {}
    (List.mem_cons_self _ _) rfl
  exact ⟨h.1, h.2.1, h.2.2.1, h.2.2.2⟩

/-! ## Neo4j destination property conversion

`Neo4jDestination._convert_uuids_to_strings` and
`Neo4jDestination._ensure_neo4j_compatible`
(`app/platform/destinations/neo4j.py` lines 117-198) operate on Python
values.  The value universe is modelled as a mutual inductive: scalars
(`None`, `str`, `bool`, `int`, `float`), UUID objects, lists, tuples and
string-keyed dicts.  Floats are carried as an opaque payload; the conversion
code never computes with them.
-/

mutual

inductive PyVal where
  | vNone
  | vStr (s : String)
  | vBool (b : Bool)
  | vInt (n : Int)
  | vFloat (bits : Nat)
  | vUUID (u : String)
  | vList (xs : PyList)
  | vTuple (xs : PyList)
  | vDict (kvs : PyDict)

inductive PyList where
  | nil
  | cons (x : PyVal) (xs : PyList)

inductive PyDict where
  | nil
  | cons (k : String) (v : PyVal) (kvs : PyDict)

end

mutual

/-- `json.dumps` with its default separators, on already-converted values.
String escaping is elided; no claim depends on the rendered text, only on the
fact that the result is a string. -/
def jsonDumps : PyVal → String
  | PyVal.vNone => "null"
  | PyVal.vStr s => "\"" ++ s ++ "\""
  | PyVal.vBool b => if b then "true" else "false"
  | PyVal.vInt n => toString n
  | PyVal.vFloat bits => toString bits
  | PyVal.vUUID u => "\"" ++ u ++ "\""
  | PyVal.vList xs => "[" ++ jsonDumpsItems xs ++ "]"
  | PyVal.vTuple xs => "[" ++ jsonDumpsItems xs ++ "]"
  | PyVal.vDict kvs => "\x7b" ++ jsonDumpsEntries kvs ++ "\x7d"

def jsonDumpsItems : PyList → String
  | PyList.nil => ""
  | PyList.cons x PyList.nil => jsonDumps x
  | PyList.cons x xs => jsonDumps x ++ ", " ++ jsonDumpsItems xs

def jsonDumpsEntries : PyDict → String
  | PyDict.nil => ""
  | PyDict.cons k v PyDict.nil => "\"" ++ k ++ "\": " ++ jsonDumps v
  | PyDict.cons k v kvs => "\"" ++ k ++ "\": " ++ jsonDumps v ++ ", " ++ jsonDumpsEntries kvs

end

/-- `isinstance(v, dict)`. -/
def pyIsDict : PyVal → Bool
  | PyVal.vDict _ => true
  | _ => false

/-- `any(isinstance(item, dict) for item in v)`. -/
def pyListHasDict : PyList → Bool
  | PyList.nil => false
  | PyList.cons x xs => pyIsDict x || pyListHasDict xs

/-- `isinstance(v, (list, tuple)) and any(isinstance(item, dict) for item in v)`. -/
def isSeqWithDict : PyVal → Bool
  | PyVal.vList xs => pyListHasDict xs
  | PyVal.vTuple xs => pyListHasDict xs
  | _ => false

mutual

/-- `Neo4jDestination._convert_uuids_to_strings` (neo4j.py lines 117-154):
UUIDs become strings; inside a dict, a value that is itself a dict — or a
list/tuple containing a dict — is converted and then serialized with
`json.dumps`; lists and tuples are converted element-wise; scalars pass
through. -/
def convertUuids : PyVal → PyVal
  | PyVal.vUUID u => PyVal.vStr u
  | PyVal.vDict kvs => PyVal.vDict (convertDictEntries kvs)
  | PyVal.vList xs => PyVal.vList (convertItems xs)
  | PyVal.vTuple xs => PyVal.vTuple (convertItems xs)
  | v => v

def convertItems : PyList → PyList
  | PyList.nil => PyList.nil
  | PyList.cons x xs => PyList.cons (convertUuids x) (convertItems xs)

def convertDictEntries : PyDict → PyDict
  | PyDict.nil => PyDict.nil
  | PyDict.cons k v kvs =>
      if pyIsDict v || isSeqWithDict v then
        PyDict.cons k (PyVal.vStr (jsonDumps (convertUuids v))) (convertDictEntries kvs)
      else
        PyDict.cons k (convertUuids v) (convertDictEntries kvs)

end

/-- `value is None or isinstance(value, (str, bool, int, float))`. -/
def pyIsPrimitive : PyVal → Bool
  | PyVal.vNone => true
  | PyVal.vStr _ => true
  | PyVal.vBool _ => true
  | PyVal.vInt _ => true
  | PyVal.vFloat _ => true
  | _ => false

/-- `all(isinstance(item, (str, bool, int, float, type(None))) for item in v)`. -/
def pyAllPrimitive : PyList → Bool
  | PyList.nil => true
  | PyList.cons x xs => pyIsPrimitive x && pyAllPrimitive xs

/-- `Neo4jDestination._ensure_neo4j_compatible` (neo4j.py lines 156-198):
keep `None` and primitive values; keep lists/tuples all of whose items are
primitive, coercing tuples with `list(value)`; silently skip every other
entry. -/
def ensureNeo4jCompatible : PyDict → PyDict
  | PyDict.nil => PyDict.nil
  | PyDict.cons k v kvs =>
      match v with
      | PyVal.vList xs =>
          if pyAllPrimitive xs then
            PyDict.cons k (PyVal.vList xs) (ensureNeo4jCompatible kvs)
          else
            ensureNeo4jCompatible kvs
      | PyVal.vTuple xs =>
          if pyAllPrimitive xs then
            PyDict.cons k (PyVal.vList xs) (ensureNeo4jCompatible kvs)
          else
            ensureNeo4jCompatible kvs
      | w =>
          if pyIsPrimitive w then
            PyDict.cons k w (ensureNeo4jCompatible kvs)
          else
            ensureNeo4jCompatible kvs

/-- The two conversion steps the destination applies to every property map
before handing it to the database (`create_node`, `bulk_create_nodes`,
`create_relationship`, `bulk_create_relationships`, `insert`, `bulk_insert`):
`_convert_uuids_to_strings` followed by `_ensure_neo4j_compatible`. -/
def processProperties (kvs : PyDict) : PyDict :=
  ensureNeo4jCompatible (convertDictEntries kvs)

/-- View a modelled dict as an association list, for stating membership. -/
def dictToList : PyDict → List (String × PyVal)
  | PyDict.nil => []
  | PyDict.cons k v kvs => (k, v) :: dictToList kvs

/-- A legal Neo4j property value: null, a primitive, or an array of
primitives. -/
def neoCompatible : PyVal → Bool
  | PyVal.vList xs => pyAllPrimitive xs
  | v => pyIsPrimitive v

theorem pyIsDict_vStr (s : String) : pyIsDict (PyVal.vStr s) = false := rfl

theorem isSeqWithDict_vStr (s : String) : isSeqWithDict (PyVal.vStr s) = false := rfl

theorem convertUuids_vStr (s : String) : convertUuids (PyVal.vStr s) = PyVal.vStr s := rfl

theorem pyIsDict_convertUuids (v : PyVal) : pyIsDict (convertUuids v) = pyIsDict v := by
  cases v <;> rfl

theorem pyListHasDict_convertItems : ∀ xs : PyList,
    pyListHasDict (convertItems xs) = pyListHasDict xs
  | PyList.nil => rfl
  | PyList.cons x xs => by
      rw [convertItems, pyListHasDict, pyListHasDict, pyIsDict_convertUuids x,
        pyListHasDict_convertItems xs]

theorem isSeqWithDict_convertUuids (v : PyVal) :
    isSeqWithDict (convertUuids v) = isSeqWithDict v := by
  cases v with
  | vList xs => rw [convertUuids, isSeqWithDict, isSeqWithDict, pyListHasDict_convertItems]
  | vTuple xs => rw [convertUuids, isSeqWithDict, isSeqWithDict, pyListHasDict_convertItems]
  | _ => rfl

mutual

theorem convertUuids_idem_aux : ∀ v : PyVal, convertUuids (convertUuids v) = convertUuids v
  | PyVal.vNone => rfl
  | PyVal.vStr _ => rfl
  | PyVal.vBool _ => rfl
  | PyVal.vInt _ => rfl
  | PyVal.vFloat _ => rfl
  | PyVal.vUUID _ => rfl
  | PyVal.vList xs => by rw [convertUuids, convertUuids, convertItems_idem_aux xs]
  | PyVal.vTuple xs => by rw [convertUuids, convertUuids, convertItems_idem_aux xs]
  | PyVal.vDict kvs => by rw [convertUuids, convertUuids, convertDictEntries_idem_aux kvs]

theorem convertItems_idem_aux : ∀ xs : PyList, convertItems (convertItems xs) = convertItems xs
  | PyList.nil => rfl
  | PyList.cons x xs => by
      rw [convertItems, convertItems, convertUuids_idem_aux x, convertItems_idem_aux xs]

theorem convertDictEntries_idem_aux : ∀ kvs : PyDict,
    convertDictEntries (convertDictEntries kvs) = convertDictEntries kvs
  | PyDict.nil => rfl
  | PyDict.cons k v kvs => by
      by_cases h : (pyIsDict v || isSeqWithDict v) = true
      · rw [convertDictEntries, if_pos h, convertDictEntries]
        simp only [pyIsDict_vStr, isSeqWithDict_vStr, convertUuids_vStr, Bool.or_self,
          Bool.false_eq_true, if_false, convertDictEntries_idem_aux kvs]
      · rw [convertDictEntries, if_neg h, convertDictEntries,
          if_neg (by rw [pyIsDict_convertUuids, isSeqWithDict_convertUuids]; exact h),
          convertUuids_idem_aux v, convertDictEntries_idem_aux kvs]

end

/-- C10: the Neo4j destination's `_convert_uuids_to_strings` is idempotent:
a second application changes nothing, since UUIDs became strings and nested
dicts (and lists/tuples containing dicts) became JSON strings on the first
pass. -/
theorem convert_uuids_idempotent (v : PyVal) :
    convertUuids (convertUuids v) = convertUuids v :=
  convertUuids_idem_aux v

theorem ensure_all_compatible : ∀ (d : PyDict) (kv : String × PyVal),
    kv ∈ dictToList (ensureNeo4jCompatible d) → neoCompatible kv.2 = true
  | PyDict.nil, kv => by
      intro h
      simp [ensureNeo4jCompatible, dictToList] at h
  | PyDict.cons k v kvs, kv => by
      intro h
      cases v with
      | vList xs =>
          by_cases hp : pyAllPrimitive xs = true
          · simp only [ensureNeo4jCompatible, if_pos hp, dictToList, List.mem_cons] at h
            rcases h with h | h
            · subst h; simpa [neoCompatible] using hp
            · exact ensure_all_compatible kvs kv h
          · simp only [ensureNeo4jCompatible, if_neg hp] at h
            exact ensure_all_compatible kvs kv h
      | vTuple xs =>
          by_cases hp : pyAllPrimitive xs = true
          · simp only [ensureNeo4jCompatible, if_pos hp, dictToList, List.mem_cons] at h
            rcases h with h | h
            · subst h; simpa [neoCompatible] using hp
            · exact ensure_all_compatible kvs kv h
          · simp only [ensureNeo4jCompatible, if_neg hp] at h
            exact ensure_all_compatible kvs kv h
      | vNone =>
          simp only [ensureNeo4jCompatible, pyIsPrimitive, if_pos, dictToList,
            List.mem_cons] at h
          rcases h with h | h
          · subst h; rfl
          · exact ensure_all_compatible kvs kv h
      | vStr s =>
          simp only [ensureNeo4jCompatible, pyIsPrimitive, if_pos, dictToList,
            List.mem_cons] at h
          rcases h with h | h
          · subst h; rfl
          · exact ensure_all_compatible kvs kv h
      | vBool b =>
          simp only [ensureNeo4jCompatible, pyIsPrimitive, if_pos, dictToList,
            List.mem_cons] at h
          rcases h with h | h
          · subst h; rfl
          · exact ensure_all_compatible kvs kv h
      | vInt n =>
          simp only [ensureNeo4jCompatible, pyIsPrimitive, if_pos, dictToList,
            List.mem_cons] at h
          rcases h with h | h
          · subst h; rfl
          · exact ensure_all_compatible kvs kv h
      | vFloat bits =>
          simp only [ensureNeo4jCompatible, pyIsPrimitive, if_pos, dictToList,
            List.mem_cons] at h
          rcases h with h | h
          · subst h; rfl
          · exact ensure_all_compatible kvs kv h
      | vUUID u =>
          simp only [ensureNeo4jCompatible, pyIsPrimitive] at h
          exact ensure_all_compatible kvs kv (by simpa using h)
      | vDict kvs2 =>
          simp only [ensureNeo4jCompatible, pyIsPrimitive] at h
          exact ensure_all_compatible kvs kv (by simpa using h)

theorem mem_ensure_cons (k : String) (v : PyVal) (kvs : PyDict)
    (x : String × PyVal) (hx : x ∈ dictToList (ensureNeo4jCompatible kvs)) :
    x ∈ dictToList (ensureNeo4jCompatible (PyDict.cons k v kvs)) := by
  cases v with
  | vList xs =>
      by_cases hp : pyAllPrimitive xs = true
      · simp only [ensureNeo4jCompatible, if_pos hp, dictToList]
        exact List.mem_cons_of_mem _ hx
      · simp only [ensureNeo4jCompatible, if_neg hp]
        exact hx
  | vTuple xs =>
      by_cases hp : pyAllPrimitive xs = true
      · simp only [ensureNeo4jCompatible, if_pos hp, dictToList]
        exact List.mem_cons_of_mem _ hx
      · simp only [ensureNeo4jCompatible, if_neg hp]
        exact hx
  | vNone => exact List.mem_cons_of_mem _ hx
  | vStr s => exact List.mem_cons_of_mem _ hx
  | vBool b => exact List.mem_cons_of_mem _ hx
  | vInt n => exact List.mem_cons_of_mem _ hx
  | vFloat bits => exact List.mem_cons_of_mem _ hx
  | vUUID u => exact hx
  | vDict kvs2 => exact hx

theorem complex_values_serialized : ∀ (d : PyDict) (k : String) (v : PyVal),
    (k, v) ∈ dictToList d → (pyIsDict v || isSeqWithDict v) = true →
    (k, PyVal.vStr (jsonDumps (convertUuids v))) ∈ dictToList (processProperties d)
  | PyDict.nil, k, v => by
      intro h _
      simp [dictToList] at h
  | PyDict.cons k2 v2 kvs, k, v => by
      intro h hcomplex
      simp only [dictToList, List.mem_cons, Prod.mk.injEq] at h
      rcases h with ⟨hk, hv⟩ | h
      · subst hk; subst hv
        unfold processProperties
        rw [convertDictEntries, if_pos hcomplex]
        simp only [ensureNeo4jCompatible, pyIsPrimitive, dictToList]
        exact List.mem_cons_self _ _
      · unfold processProperties
        rw [convertDictEntries]
        by_cases hc2 : (pyIsDict v2 || isSeqWithDict v2) = true
        · rw [if_pos hc2]
          exact mem_ensure_cons _ _ _ _ (complex_values_serialized kvs k v h hcomplex)
        · rw [if_neg hc2]
          exact mem_ensure_cons _ _ _ _ (complex_values_serialized kvs k v h hcomplex)

/-- C9: after the Neo4j destination's conversion steps
(`_convert_uuids_to_strings` then `_ensure_neo4j_compatible`), every property
value in the map handed to the database is null, a primitive, or an array of
primitives; and every entry whose original value was complex — a dict, or a
list/tuple containing a dict — appears serialized as a JSON string rather
than passed through. -/
theorem neo4j_properties_compatible (d : PyDict) :
    (∀ kv ∈ dictToList (processProperties d), neoCompatible kv.2 = true)
    ∧ ∀ k v, (k, v) ∈ dictToList d → (pyIsDict v || isSeqWithDict v) = true →
        (k, PyVal.vStr (jsonDumps (convertUuids v))) ∈ dictToList (processProperties d) :=
  ⟨fun kv h => ensure_all_compatible (convertDictEntries d) kv h,
   fun k v h hc => complex_values_serialized d k v h hc⟩

/-- A concrete property map as produced for a node: a UUID-valued `id` and a
dict-valued `meta`. -/
def samplePropertyMap : PyDict :=
  PyDict.cons "id" (PyVal.vUUID "u1")
    (PyDict.cons "meta" (PyVal.vDict (PyDict.cons "a" (PyVal.vInt 1) PyDict.nil)) PyDict.nil)

/-- Closed instance of `neo4j_properties_compatible` at `samplePropertyMap`:
the converted `id` value is a compatible string, and the dict-valued `meta`
entry surfaces as a JSON string. -/
theorem neo4j_properties_compatible_witness :
    neoCompatible (PyVal.vStr "u1") = true
    ∧ ("meta",
        PyVal.vStr (jsonDumps (convertUuids
          (PyVal.vDict (PyDict.cons "a" (PyVal.vInt 1) PyDict.nil))))) ∈
        dictToList (processProperties samplePropertyMap) := by
  constructor
  · exact (neo4j_properties_compatible samplePropertyMap).1 ("id", PyVal.vStr "u1")
      (by simp [samplePropertyMap, processProperties, convertDictEntries, pyIsDict,
        isSeqWithDict, convertUuids, ensureNeo4jCompatible, pyIsPrimitive, dictToList])
  · exact (neo4j_properties_compatible samplePropertyMap).2 "meta"
      (PyVal.vDict (PyDict.cons "a" (PyVal.vInt 1) PyDict.nil))
      (by simp [samplePropertyMap, dictToList]) rfl

/-! ## Access-control pipeline

The implementation module `airweave/platform/sync/access_control_pipeline.py`
is not part of this source tree; only its unit tests
(`tests/unit/platform/sync/pipeline/test_acl_reconciliation.py`) are.  The
pipeline is therefore modelled from §4.9 of the specification, with the
database calls recorded as an operation trace so that "no reconciliation
query is issued" is expressible.
-/

/-- Modelled from the spec: a row of the `access_control_membership` table
(the missing pipeline's store), restricted to the key fields the pipeline
diffs on; the organization and source-connection scope is fixed for one run. -/
structure MembershipRow where
  groupId : String
  memberId : String
  memberType : String
  deriving DecidableEq, Repr

/-- Modelled from the spec: `ACLChangeType` of the missing
`airweave/platform/access_control/schemas.py`. -/
inductive ACLChangeType where
  | add
  | remove
  deriving DecidableEq, Repr

/-- Modelled from the spec: `MembershipChange` of the missing
`airweave/platform/access_control/schemas.py`. -/
structure MembershipChange where
  changeType : ACLChangeType
  memberId : String
  memberType : String
  groupId : String
  groupName : Option String := none
  deriving DecidableEq, Repr

/-- Modelled from the spec: the `DirSyncResult` returned by
`source.get_acl_changes`. -/
structure DirSyncResult where
  changes : List MembershipChange
  modifiedGroupIds : List String
  deletedGroupIds : List String
  incrementalValues : Bool
  cookieB64 : String
  deriving DecidableEq, Repr

/-- A call issued by the pipeline against `crud.access_control_membership`;
`getMembershipsByGroups` is the reconciliation read. -/
inductive AclDbOp where
  | upsert (row : MembershipRow)
  | deleteByKey (row : MembershipRow)
  | getMembershipsByGroups (groupIds : List String)
  | deleteByGroup (groupId : String)
  deriving DecidableEq, Repr

/-- `crud.access_control_membership.upsert`: insert the row if it is not
already present (the table has a unique key over the row's fields). -/
def upsertRow (db : List MembershipRow) (r : MembershipRow) : List MembershipRow :=
  if r ∈ db then db else db ++ [r]

/-- `crud.access_control_membership.delete_by_key`. -/
def deleteRowByKey (db : List MembershipRow) (r : MembershipRow) : List MembershipRow :=
  db.filter (fun x => !decide (x = r))

/-- The membership row written for one `MembershipChange`. -/
def changeRow (c : MembershipChange) : MembershipRow :=
  { groupId := c.groupId, memberId := c.memberId, memberType := c.memberType }

/-- State after a pipeline phase: the membership table, the running ADD and
REMOVE counts, and the trace of database calls. -/
structure AclApplyResult where
  db : List MembershipRow
  adds : Nat
  removes : Nat
  ops : List AclDbOp
  deriving DecidableEq, Repr

/-- Modelled from the spec: the first phase of the missing
`AccessControlPipeline._apply_membership_changes` — apply ADDs as upserts and
REMOVEs as deletes, counting each. -/
def applyChangesList (db : List MembershipRow) :
    List MembershipChange → AclApplyResult
  | [] => { db := db, adds := 0, removes := 0, ops := [] }
  | c :: cs =>
      match c.changeType with
      | ACLChangeType.add =>
          let rest := applyChangesList (upsertRow db (changeRow c)) cs
          { rest with adds := rest.adds + 1, ops := AclDbOp.upsert (changeRow c) :: rest.ops }
      | ACLChangeType.remove =>
          let rest := applyChangesList (deleteRowByKey db (changeRow c)) cs
          { rest with removes := rest.removes + 1,
                      ops := AclDbOp.deleteByKey (changeRow c) :: rest.ops }

/-- The DirSync ADD set for a group: the `(member_id, member_type)` pairs of
the ADD changes naming that group. -/
def addSetFor (changes : List MembershipChange) (g : String) : List (String × String) :=
  (changes.filter (fun c => decide (c.changeType = ACLChangeType.add ∧ c.groupId = g))).map
    (fun c => (c.memberId, c.memberType))

/-- A stored membership row is stale when its group was modified but the
DirSync ADD set for that group does not contain its member. -/
def isStale (modified : List String) (changes : List MembershipChange)
    (r : MembershipRow) : Bool :=
  decide (r.groupId ∈ modified) &&
    !decide ((r.memberId, r.memberType) ∈ addSetFor changes r.groupId)

/-- Modelled from the spec: the missing
`AccessControlPipeline._reconcile_modified_groups` — read the current members
of the modified groups (`get_memberships_by_groups`) and delete every one
absent from the DirSync ADD set, returning the delete count. -/
def reconcileModifiedGroups (db : List MembershipRow) (modified : List String)
    (changes : List MembershipChange) : List MembershipRow × Nat × List AclDbOp :=
  let stale := db.filter (isStale modified changes)
  (db.filter (fun r => !isStale modified changes r), stale.length,
    AclDbOp.getMembershipsByGroups modified :: stale.map AclDbOp.deleteByKey)

/-- Modelled from the spec: the missing
`AccessControlPipeline._apply_membership_changes` — apply the changes, then
reconcile exactly when the DirSync result is not incremental
(`incremental_values=false`) and `modified_group_ids` is non-empty. -/
def applyMembershipChanges (db : List MembershipRow) (result : DirSyncResult) :
    AclApplyResult :=
  let st := applyChangesList db result.changes
  if !result.incrementalValues && !result.modifiedGroupIds.isEmpty then
    let rec2 := reconcileModifiedGroups st.db result.modifiedGroupIds result.changes
    { db := rec2.1, adds := st.adds, removes := st.removes + rec2.2.1,
      ops := st.ops ++ rec2.2.2 }
  else
    st

/-- Modelled from the spec: `crud.access_control_membership.delete_by_group`
over `deleted_group_ids` — remove all memberships of each deleted group and
count the removed rows. -/
def deleteGroups (db : List MembershipRow) :
    List String → List MembershipRow × Nat × List AclDbOp
  | [] => (db, 0, [])
  | g :: gs =>
      let removed := (db.filter (fun r => decide (r.groupId = g))).length
      let rest := deleteGroups (db.filter (fun r => !decide (r.groupId = g))) gs
      (rest.1, removed + rest.2.1, AclDbOp.deleteByGroup g :: rest.2.2)

/-- Outcome of one incremental ACL pass: the membership table, the total
change count returned, the persisted `acl_dirsync_cookie`, and the trace. -/
structure AclOutcome where
  db : List MembershipRow
  total : Nat
  cookie : Option String
  ops : List AclDbOp
  deriving DecidableEq, Repr

/-- Modelled from the spec: the missing
`AccessControlPipeline._process_incremental` — ask the source for changes; on
any exception fall back to `_process_full` (passed in as `full`) and return
its result; otherwise apply the changes, handle deleted groups, and advance
the cookie. -/
def processIncremental (full : List MembershipRow → Option String → AclOutcome)
    (db : List MembershipRow) (cookie : Option String)
    (aclChanges : Except String DirSyncResult) : AclOutcome :=
  match aclChanges with
  | Except.error _ => full db cookie
  | Except.ok r =>
      let st := applyMembershipChanges db r
      let del := deleteGroups st.db r.deletedGroupIds
      { db := del.1, total := st.adds + st.removes + del.2.1,
        cookie := some r.cookieB64, ops := st.ops ++ del.2.2 }

/-- Recognizes the reconciliation read in a trace. -/
def isReconQuery : AclDbOp → Bool
  | AclDbOp.getMembershipsByGroups _ => true
  | _ => false

/-- Whether a trace contains a reconciliation read. -/
def issuedReconQuery (ops : List AclDbOp) : Bool :=
  ops.any isReconQuery

theorem applyChangesList_no_recon : ∀ (cs : List MembershipChange) (db : List MembershipRow),
    ((applyChangesList db cs).ops).any isReconQuery = false
  | [], _ => rfl
  | c :: cs, db => by
      cases hc : c.changeType with
      | add => simp [applyChangesList, hc, isReconQuery, applyChangesList_no_recon cs]
      | remove => simp [applyChangesList, hc, isReconQuery, applyChangesList_no_recon cs]

theorem deleteGroups_no_recon : ∀ (gs : List String) (db : List MembershipRow),
    ((deleteGroups db gs).2.2).any isReconQuery = false
  | [], _ => rfl
  | g :: gs, db => by
      simp [deleteGroups, isReconQuery, deleteGroups_no_recon gs]

theorem applyMembershipChanges_recon_trace (db : List MembershipRow) (r : DirSyncResult) :
    issuedReconQuery (applyMembershipChanges db r).ops =
      (!r.incrementalValues && !r.modifiedGroupIds.isEmpty) := by
  unfold applyMembershipChanges issuedReconQuery
  by_cases h : (!r.incrementalValues && !r.modifiedGroupIds.isEmpty) = true
  · simp [h, reconcileModifiedGroups, List.any_append, applyChangesList_no_recon, isReconQuery]
  · rw [Bool.not_eq_true] at h
    simp [h, applyChangesList_no_recon]

/-- C6: in an incremental ACL pass, the reconciliation read
(`get_memberships_by_groups`) is issued if and only if the DirSync result has
`incremental_values=false` and a non-empty `modified_group_ids`; in
particular with `incremental_values=true` no reconciliation query is issued
even when groups were modified. -/
theorem acl_reconciliation_iff (full : List MembershipRow → Option String → AclOutcome)
    (db : List MembershipRow) (cookie : Option String) (r : DirSyncResult) :
    issuedReconQuery (processIncremental full db cookie (Except.ok r)).ops = true ↔
      (r.incrementalValues = false ∧ r.modifiedGroupIds ≠ []) := by
  have htr : issuedReconQuery (processIncremental full db cookie (Except.ok r)).ops =
      (!r.incrementalValues && !r.modifiedGroupIds.isEmpty) := by
    unfold processIncremental issuedReconQuery
    simp only [List.any_append]
    rw [deleteGroups_no_recon, Bool.or_false]
    exact applyMembershipChanges_recon_trace db r
  rw [htr, Bool.and_eq_true, Bool.not_eq_true', Bool.not_eq_true']
  constructor
  · rintro ⟨h1, h2⟩
    exact ⟨h1, by simpa [List.isEmpty_iff] using h2⟩
  · rintro ⟨h1, h2⟩
    exact ⟨h1, by simpa [List.isEmpty_iff] using h2⟩

/-- C7: if `get_acl_changes` raises, the incremental ACL pass does not abort:
it falls back to the full membership re-sync and returns the full re-sync's
result, whatever the database and cursor state. -/
theorem acl_fallback_to_full_on_exception
    (full : List MembershipRow → Option String → AclOutcome)
    (db : List MembershipRow) (cookie : Option String) (msg : String) :
    processIncremental full db cookie (Except.error msg) = full db cookie :=
  rfl

theorem mem_upsertRow (db : List MembershipRow) (r x : MembershipRow) :
    x ∈ upsertRow db r ↔ x ∈ db ∨ x = r := by
  by_cases h : r ∈ db
  · simp only [upsertRow, if_pos h]
    constructor
    · exact fun hx => Or.inl hx
    · rintro (hx | rfl)
      · exact hx
      · exact h
  · simp [upsertRow, if_neg h]

theorem applyChangesList_all_adds_db :
    ∀ (cs : List MembershipChange) (db : List MembershipRow),
    (∀ c ∈ cs, c.changeType = ACLChangeType.add) →
    ∃ ext, (applyChangesList db cs).db = db ++ ext ∧
      ∀ row ∈ ext, ∃ c ∈ cs, changeRow c = row
  | [], db => fun _ => ⟨[], by simp [applyChangesList]⟩
  | c :: cs, db => fun hall => by
      have hc : c.changeType = ACLChangeType.add := hall c (List.mem_cons_self _ _)
      have hall2 : ∀ c2 ∈ cs, c2.changeType = ACLChangeType.add :=
        fun c2 h => hall c2 (List.mem_cons_of_mem _ h)
      obtain ⟨ext, hdb, hext⟩ :=
        applyChangesList_all_adds_db cs (upsertRow db (changeRow c)) hall2
      simp only [applyChangesList, hc]
      by_cases hmem : changeRow c ∈ db
      · refine ⟨ext, ?_, ?_⟩
        · rw [hdb, upsertRow, if_pos hmem]
        · intro row hrow
          obtain ⟨c2, hc2, hrow2⟩ := hext row hrow
          exact ⟨c2, List.mem_cons_of_mem _ hc2, hrow2⟩
      · refine ⟨changeRow c :: ext, ?_, ?_⟩
        · rw [hdb, upsertRow, if_neg hmem, List.append_assoc, List.singleton_append]
        · intro row hrow
          rcases List.mem_cons.mp hrow with rfl | hrow2
          · exact ⟨c, List.mem_cons_self _ _, rfl⟩
          · obtain ⟨c2, hc2, hrow3⟩ := hext row hrow2
            exact ⟨c2, List.mem_cons_of_mem _ hc2, hrow3⟩

theorem applyChangesList_all_adds_removes :
    ∀ (cs : List MembershipChange) (db : List MembershipRow),
    (∀ c ∈ cs, c.changeType = ACLChangeType.add) →
    (applyChangesList db cs).removes = 0
  | [], _ => fun _ => rfl
  | c :: cs, db => fun hall => by
      have hc : c.changeType = ACLChangeType.add := hall c (List.mem_cons_self _ _)
      have hall2 : ∀ c2 ∈ cs, c2.changeType = ACLChangeType.add :=
        fun c2 h => hall c2 (List.mem_cons_of_mem _ h)
      simp only [applyChangesList, hc]
      exact applyChangesList_all_adds_removes cs (upsertRow db (changeRow c)) hall2

theorem changeRow_mem_applyChangesList :
    ∀ (cs : List MembershipChange) (db : List MembershipRow) (c : MembershipChange),
    (∀ c2 ∈ cs, c2.changeType = ACLChangeType.add) → c ∈ cs →
    changeRow c ∈ (applyChangesList db cs).db
  | [], _, _ => by
      intro _ h
      cases h
  | c2 :: cs, db, c => by
      intro hall hmem
      have hc2 : c2.changeType = ACLChangeType.add := hall c2 (List.mem_cons_self _ _)
      have hall2 : ∀ c3 ∈ cs, c3.changeType = ACLChangeType.add :=
        fun c3 h => hall c3 (List.mem_cons_of_mem _ h)
      simp only [applyChangesList, hc2]
      rcases List.mem_cons.mp hmem with rfl | hmem2
      · obtain ⟨ext, hdb, _⟩ :=
          applyChangesList_all_adds_db cs (upsertRow db (changeRow c)) hall2
        rw [hdb]
        exact List.mem_append_left _ ((mem_upsertRow _ _ _).mpr (Or.inr rfl))
      · exact changeRow_mem_applyChangesList cs _ c hall2 hmem2

theorem mem_addSetFor_of_change (cs : List MembershipChange) (c : MembershipChange)
    (hc : c ∈ cs) (hadd : c.changeType = ACLChangeType.add) :
    (c.memberId, c.memberType) ∈ addSetFor cs c.groupId := by
  unfold addSetFor
  exact List.mem_map_of_mem _ (List.mem_filter.mpr ⟨hc, by simp [hadd]⟩)

theorem exists_change_of_mem_addSetFor (cs : List MembershipChange) (g m t : String)
    (h : (m, t) ∈ addSetFor cs g) :
    ∃ c ∈ cs, c.changeType = ACLChangeType.add ∧ c.groupId = g ∧
      c.memberId = m ∧ c.memberType = t := by
  unfold addSetFor at h
  rcases List.mem_map.mp h with ⟨c, hcf, heq⟩
  rcases List.mem_filter.mp hcf with ⟨hcs, hcond⟩
  rw [decide_eq_true_iff] at hcond
  rcases Prod.mk.injEq .. ▸ heq with ⟨hm, ht⟩
  exact ⟨c, hcs, hcond.1, hcond.2, hm, ht⟩

theorem isStale_changeRow_eq_false (modified : List String)
    (cs : List MembershipChange) (c : MembershipChange) (hc : c ∈ cs)
    (hadd : c.changeType = ACLChangeType.add) :
    isStale modified cs (changeRow c) = false := by
  unfold isStale changeRow
  simp only
  rw [decide_eq_true (mem_addSetFor_of_change cs c hc hadd)]
  simp

/-- C5: applying a DirSync result with `incremental_values=false` whose
changes are the full member lists as ADDs, for every group in
`modified_group_ids` the final stored membership equals the DirSync ADD set
for that group, and the reported remove count is the number of previously
stored members of modified groups absent from their ADD sets. -/
theorem acl_basic_flags_reconciliation (db : List MembershipRow) (r : DirSyncResult)
    (g : String) (hinc : r.incrementalValues = false)
    (hadds : ∀ c ∈ r.changes, c.changeType = ACLChangeType.add)
    (hg : g ∈ r.modifiedGroupIds) :
    (∀ m t, MembershipRow.mk g m t ∈ (applyMembershipChanges db r).db ↔
        (m, t) ∈ addSetFor r.changes g)
    ∧ (applyMembershipChanges db r).removes =
        (db.filter (isStale r.modifiedGroupIds r.changes)).length := by
  have hne : r.modifiedGroupIds ≠ [] := List.ne_nil_of_mem hg
  have hcond : (!r.incrementalValues && !r.modifiedGroupIds.isEmpty) = true := by
    rw [hinc]
    simp [List.isEmpty_iff, hne]
  obtain ⟨ext, hdb, hext⟩ := applyChangesList_all_adds_db r.changes db hadds
  have hrem := applyChangesList_all_adds_removes r.changes db hadds
  unfold applyMembershipChanges
  rw [hcond]
  simp only [if_true, reconcileModifiedGroups]
  constructor
  · intro m t
    rw [List.mem_filter]
    have hstale : ∀ h2 : (m, t) ∈ addSetFor r.changes g,
        (!isStale r.modifiedGroupIds r.changes (MembershipRow.mk g m t)) = true := by
      intro h2
      unfold isStale
      simp only
      rw [decide_eq_true h2]
      simp
    constructor
    · rintro ⟨hmem, hkeep⟩
      unfold isStale at hkeep
      simp only [Bool.not_eq_true', Bool.and_eq_false_iff] at hkeep
      rcases hkeep with hkeep | hkeep
      · rw [decide_eq_false_iff_not] at hkeep
        exact absurd hg hkeep
      · simp only [Bool.not_eq_false', decide_eq_true_eq] at hkeep
        exact hkeep
    · intro h2
      obtain ⟨c, hcs, hadd, hgc, hmc, htc⟩ := exists_change_of_mem_addSetFor r.changes g m t h2
      have hrow : changeRow c = MembershipRow.mk g m t := by
        unfold changeRow
        rw [hgc, hmc, htc]
      refine ⟨?_, hstale h2⟩
      rw [← hrow]
      exact changeRow_mem_applyChangesList r.changes db c hadds hcs
  · rw [hrem, Nat.zero_add, hdb, List.filter_append]
    have hextnil : ext.filter (isStale r.modifiedGroupIds r.changes) = [] := by
      rw [List.filter_eq_nil_iff]
      intro row hrow
      obtain ⟨c, hcs, hrow2⟩ := hext row hrow
      rw [← hrow2, isStale_changeRow_eq_false r.modifiedGroupIds r.changes c hcs (hadds c hcs)]
      exact Bool.false_ne_true
    rw [hextnil, List.append_nil]

/-- Closed instance of `acl_basic_flags_reconciliation`: stored members
`{alice, bob, charlie}` of group-A, DirSync ADDs `{alice, charlie}` with
`incremental_values=false` and `modified_group_ids={group-A}`: the final
membership is exactly `{alice, charlie}` and the remove count is 1. -/
theorem acl_basic_flags_reconciliation_witness :
    (MembershipRow.mk "group-A" "alice" "user" ∈
        (applyMembershipChanges
          [MembershipRow.mk "group-A" "alice" "user",
           MembershipRow.mk "group-A" "bob" "user",
           MembershipRow.mk "group-A" "charlie" "user"]
          { changes := [MembershipChange.mk ACLChangeType.add "alice" "user" "group-A" none,
                        MembershipChange.mk ACLChangeType.add "charlie" "user" "group-A" none],
            modifiedGroupIds := ["group-A"], deletedGroupIds := [],
            incrementalValues := false, cookieB64 := "c" }).db)
    ∧ ¬ (MembershipRow.mk "group-A" "bob" "user" ∈
        (applyMembershipChanges
          [MembershipRow.mk "group-A" "alice" "user",
           MembershipRow.mk "group-A" "bob" "user",
           MembershipRow.mk "group-A" "charlie" "user"]
          { changes := [MembershipChange.mk ACLChangeType.add "alice" "user" "group-A" none,
                        MembershipChange.mk ACLChangeType.add "charlie" "user" "group-A" none],
            modifiedGroupIds := ["group-A"], deletedGroupIds := [],
            incrementalValues := false, cookieB64 := "c" }).db)
    ∧ (applyMembershipChanges
          [MembershipRow.mk "group-A" "alice" "user",
           MembershipRow.mk "group-A" "bob" "user",
           MembershipRow.mk "group-A" "charlie" "user"]
          { changes := [MembershipChange.mk ACLChangeType.add "alice" "user" "group-A" none,
                        MembershipChange.mk ACLChangeType.add "charlie" "user" "group-A" none],
            modifiedGroupIds := ["group-A"], deletedGroupIds := [],
            incrementalValues := false, cookieB64 := "c" }).removes = 1 := by
  have h := acl_basic_flags_reconciliation
    [MembershipRow.mk "group-A" "alice" "user",
     MembershipRow.mk "group-A" "bob" "user",
     MembershipRow.mk "group-A" "charlie" "user"]
    { changes := [MembershipChange.mk ACLChangeType.add "alice" "user" "group-A" none,
                  MembershipChange.mk ACLChangeType.add "charlie" "user" "group-A" none],
      modifiedGroupIds := ["group-A"], deletedGroupIds := [],
      incrementalValues := false, cookieB64 := "c" }
    "group-A" rfl (by decide) (by decide)
  refine ⟨(h.1 "alice" "user").mpr (by decide), ?_, ?_⟩
  · intro hb
    exact absurd ((h.1 "bob" "user").mp hb) (by decide)
  · rw [h.2]
    decide

/-! ## SharePoint 2019 V2 deletion entities

The entity module `airweave/platform/entities/sharepoint2019v2.py` is not
part of this source tree; only its unit tests
(`tests/unit/platform/sources/test_sharepoint2019v2.py`) are.  The deletion
entities are modelled from §4.1 of the specification: a `DeletionEntity`
carries identity fields plus `deletion_status ∈ {removed, archived}`, and its
Pydantic construction fails when `deletion_status` or `breadcrumbs` is
missing.
-/

/-- Modelled from the spec: the `deletion_status ∈ {removed, archived}`
literal of the missing deletion-entity classes. -/
inductive DeletionStatus where
  | removed
  | archived
  deriving DecidableEq, Repr

/-- A breadcrumb: a parent identity and display name. -/
structure Breadcrumb where
  entityId : String
  name : String
  deriving DecidableEq, Repr

/-- Modelled from the spec: `SharePoint2019V2FileDeletionEntity` of the
missing `airweave/platform/entities/sharepoint2019v2.py`, with the identity
fields its unit tests construct. -/
structure SharePoint2019V2FileDeletionEntity where
  listId : String
  itemId : Int
  spEntityId : String
  label : String
  deletionStatus : DeletionStatus
  breadcrumbs : List Breadcrumb
  deriving DecidableEq, Repr

/-- Modelled from the spec: `SharePoint2019V2ItemDeletionEntity` of the
missing `airweave/platform/entities/sharepoint2019v2.py`. -/
structure SharePoint2019V2ItemDeletionEntity where
  listId : String
  itemId : Int
  spEntityId : String
  label : String
  deletionStatus : DeletionStatus
  breadcrumbs : List Breadcrumb
  deriving DecidableEq, Repr

/-- Modelled from the spec: Pydantic construction of a file deletion entity.
An omitted keyword argument arrives as `none` and raises `ValidationError`;
construction succeeds exactly when both `deletion_status` and `breadcrumbs`
are supplied. -/
def mkFileDeletionEntity (listId : String) (itemId : Int) (spEntityId label : String)
    (deletionStatus : Option DeletionStatus) (breadcrumbs : Option (List Breadcrumb)) :
    Except String SharePoint2019V2FileDeletionEntity :=
  match deletionStatus, breadcrumbs with
  | some ds, some bc => Except.ok ⟨listId, itemId, spEntityId, label, ds, bc⟩
  | none, _ => Except.error ("ValidationError: field required: deletion_status")
  | _, none => Except.error ("ValidationError: field required: breadcrumbs")

/-- Modelled from the spec: Pydantic construction of an item deletion
entity. -/
def mkItemDeletionEntity (listId : String) (itemId : Int) (spEntityId label : String)
    (deletionStatus : Option DeletionStatus) (breadcrumbs : Option (List Breadcrumb)) :
    Except String SharePoint2019V2ItemDeletionEntity :=
  match deletionStatus, breadcrumbs with
  | some ds, some bc => Except.ok ⟨listId, itemId, spEntityId, label, ds, bc⟩
  | none, _ => Except.error ("ValidationError: field required: deletion_status")
  | _, none => Except.error ("ValidationError: field required: breadcrumbs")

/-- C8: constructing a SharePoint file or item deletion entity fails with a
validation error exactly when `deletion_status` or `breadcrumbs` is missing,
and succeeds when both are supplied — in particular with an empty breadcrumb
list. -/
theorem deletion_entity_construction (listId : String) (itemId : Int)
    (spEntityId label : String) (deletionStatus : Option DeletionStatus)
    (breadcrumbs : Option (List Breadcrumb)) :
    ((mkFileDeletionEntity listId itemId spEntityId label deletionStatus
        breadcrumbs).isOk = (deletionStatus.isSome && breadcrumbs.isSome))
    ∧ ((mkItemDeletionEntity listId itemId spEntityId label deletionStatus
        breadcrumbs).isOk = (deletionStatus.isSome && breadcrumbs.isSome))
    ∧ ∀ ds : DeletionStatus,
        mkFileDeletionEntity listId itemId spEntityId label (some ds) (some []) =
          Except.ok ⟨listId, itemId, spEntityId, label, ds, []⟩ := by
  refine ⟨?_, ?_, fun ds => rfl⟩
  · cases deletionStatus <;> cases breadcrumbs <;> rfl
  · cases deletionStatus <;> cases breadcrumbs <;> rfl

end Airweave
